import Mathlib

/-!
Shallow embedding of the asynchronous task-status pipeline of the
scriptassist task-management backend: the tasks service (create / update /
batch-process / overdue query), the scheduled overdue scanner, and the queue
worker (task processor) with its two job handlers.  Stores are lists of task
rows, the queue is a list of accepted jobs, and fallible operations return
`Except`.  Each definition is translated from the corresponding TypeScript
source; deviations forced by the embedding (time, concurrency, transport) are
noted in the doc comments.
-/

namespace ScriptAssist

/-- Modelled from the spec: the task-status enumeration source file
(`task-status.enum.ts`) is not under `src/` (only its importers are); the
spec's wire contract for job payloads lists the values
`"PENDING" | "IN_PROGRESS" | "COMPLETED"`. -/
inductive TaskStatus where
  | PENDING
  | IN_PROGRESS
  | COMPLETED
deriving DecidableEq, Repr

/-- Modelled from the spec: the task-priority enumeration source file is not
under `src/`; the spec lists LOW, MEDIUM, HIGH, with MEDIUM the entity
default. -/
inductive TaskPriority where
  | LOW
  | MEDIUM
  | HIGH
deriving DecidableEq, Repr

/-- The `Task` entity (`task.entity.ts`): id, title, nullable description,
status (default PENDING), priority (default MEDIUM), nullable due date,
owning user id.  Timestamps are modelled as integers; `createdAt` and
`updatedAt` are bookkeeping columns no pipeline claim reads, so they are
omitted from the row. -/
structure Task where
  id : String
  title : String
  description : Option String := none
  status : TaskStatus := TaskStatus.PENDING
  priority : TaskPriority := TaskPriority.MEDIUM
  dueDate : Option Int := none
  userId : String := ""
deriving DecidableEq, Repr

/-- The projected row `{id, title, dueDate}` selected by the overdue scanner
and carried in `overdue-tasks-notification` payloads. -/
structure OverdueTaskSummary where
  taskId : String
  title : String
  dueDate : Option Int
deriving DecidableEq, Repr

/-- The BullMQ backoff option object `{type, delay}`. -/
structure BackoffOpts where
  type : String
  delay : Nat
deriving DecidableEq, Repr

/-- The subset of BullMQ job options this codebase passes to `queue.add`;
a field is `none` when the call site omits the option. -/
structure JobOpts where
  attempts : Option Nat := none
  backoff : Option BackoffOpts := none
  removeOnComplete : Option Bool := none
  removeOnFail : Option Bool := none
deriving DecidableEq, Repr

/-- Payload of a produced job: either a `{taskId, status}` status-update or a
`{tasks: [...]}` overdue-notification batch. -/
inductive JobPayload where
  | statusUpdate (taskId : String) (status : TaskStatus)
  | overdueBatch (tasks : List OverdueTaskSummary)
deriving DecidableEq, Repr

/-- A job accepted by the `task-processing` queue. -/
structure Job where
  name : String
  payload : JobPayload
  opts : JobOpts
deriving DecidableEq, Repr

/-- The batch of task summaries carried by an overdue-notification job
(empty for status-update jobs). -/
def Job.batchTasks (j : Job) : List OverdueTaskSummary :=
  match j.payload with
  | JobPayload.statusUpdate _ _ => []
  | JobPayload.overdueBatch ts => ts

/-- Options passed by `TasksService.enqueueWithRetry` and by the
`batchProcess` enqueue call: `{ removeOnComplete: true, attempts: 3 }`
(no backoff, no removeOnFail). -/
def statusUpdateJobOpts : JobOpts :=
  { attempts := some 3, removeOnComplete := some true }

/-- Options passed by `OverdueTasksService.checkOverdueTasks`:
`{ attempts: 3, backoff: { type: 'exponential', delay: 1000 },
removeOnComplete: true, removeOnFail: false }`. -/
def overdueJobOpts : JobOpts :=
  { attempts := some 3
    backoff := some { type := "exponential", delay := 1000 }
    removeOnComplete := some true
    removeOnFail := some false }

/-- Build the status-update job enqueued by the tasks service. -/
def statusUpdateJob (taskId : String) (status : TaskStatus) : Job :=
  { name := "task-status-update"
    payload := JobPayload.statusUpdate taskId status
    opts := statusUpdateJobOpts }

/-- Build one overdue-notification job for a batch of summaries. -/
def overdueJob (tasks : List OverdueTaskSummary) : Job :=
  { name := "overdue-tasks-notification"
    payload := JobPayload.overdueBatch tasks
    opts := overdueJobOpts }

/-- Projection used by the scanner payload: `{taskId: task.id, title, dueDate}`. -/
def taskSummary (t : Task) : OverdueTaskSummary :=
  { taskId := t.id, title := t.title, dueDate := t.dueDate }

/-- The scanner's query predicate: `dueDate < now AND status = PENDING`
(a NULL due date never satisfies `dueDate < now`). -/
def isOverduePending (now : Int) (t : Task) : Bool :=
  (match t.dueDate with
   | some d => decide (d < now)
   | none => false) && decide (t.status = TaskStatus.PENDING)

/-- Structural worker for `chunks100`: `fuel` bounds the number of slices and
is irrelevant whenever `l.length ≤ fuel` (each slice consumes at least one
element).  Structural recursion keeps the definition kernel-computable. -/
def chunks100Go : Nat → List Task → List (List Task)
  | _, [] => []
  | 0, l => [l]
  | fuel + 1, l => l.take 100 :: chunks100Go fuel (l.drop 100)

/-- Consecutive slices of 100, mirroring the scanner's
`for (i = 0; i < n; i += batchSize) slice(i, i + batchSize)` loop. -/
def chunks100 (l : List Task) : List (List Task) :=
  chunks100Go l.length l

/-- The scanner `OverdueTasksService.checkOverdueTasks`: query pending tasks past due,
then enqueue one `overdue-tasks-notification` job per batch of at most 100
summaries.  `q` is the queue contents before the run; logging and the
swallow-all error handler around the body have no effect on the pure model. -/
def checkOverdueTasks (now : Int) (store : List Task) (q : List Job) : List Job :=
  let overdueTasks := store.filter (isOverduePending now)
  if overdueTasks.length > 0 then
    q ++ (chunks100 overdueTasks).map (fun batch => overdueJob (batch.map taskSummary))
  else q

/-- Result object returned by `TaskProcessorService.process`; handler-specific
result fields (`taskId`, `newStatus`, `processedCount`) are modelled on the
dedicated handler result types below. -/
structure ProcessResult where
  success : Bool
  error : Option String := none
deriving DecidableEq, Repr

/-- The constant `TaskProcessorService.maxRetries`. -/
def maxRetries : Nat := 3

/-- The try/catch wrapper of `TaskProcessorService.process` around the
dispatch switch: `dispatched` is the outcome of the dispatched handler
(`Except.error` models a thrown exception).  The pre-dispatch backoff sleep
`min(1000 * 2 ^ attemptsMade, 30000)` only affects timing, not outcomes. -/
def processOutcome (attemptsMade : Nat) (dispatched : Except String ProcessResult) :
    Except String ProcessResult :=
  match dispatched with
  | Except.ok r => Except.ok r
  | Except.error msg =>
    if attemptsMade < maxRetries then Except.error msg
    else
      Except.ok
        { success := false
          error := some ("Job failed after " ++ toString maxRetries ++ " retries: " ++ msg) }

theorem chunks100Go_nil (fuel : Nat) : chunks100Go fuel [] = [] := by
  cases fuel <;> rfl

theorem chunks100Go_cons (fuel : Nat) (l : List Task) (h : l ≠ []) :
    chunks100Go (fuel + 1) l = l.take 100 :: chunks100Go fuel (l.drop 100) := by
  cases l with
  | nil => exact absurd rfl h
  | cons a t => rfl

theorem chunks100Go_flatten (fuel : Nat) :
    ∀ l : List Task, l.length ≤ fuel → (chunks100Go fuel l).flatten = l := by
  induction fuel with
  | zero =>
    intro l hl
    have : l = [] := List.length_eq_zero.mp (Nat.le_zero.mp hl)
    simp [this, chunks100Go_nil]
  | succ fuel ih =>
    intro l hl
    by_cases h : l = []
    · simp [h, chunks100Go_nil]
    · rw [chunks100Go_cons fuel l h]
      have hdrop : (l.drop 100).length ≤ fuel := by
        have hpos : 0 < l.length := List.length_pos.mpr h
        simp only [List.length_drop]
        omega
      simp only [List.flatten_cons, ih (l.drop 100) hdrop]
      exact List.take_append_drop 100 l

theorem chunks100Go_length (fuel : Nat) :
    ∀ l : List Task, l.length ≤ fuel →
      (chunks100Go fuel l).length = (l.length + 99) / 100 := by
  induction fuel with
  | zero =>
    intro l hl
    have : l = [] := List.length_eq_zero.mp (Nat.le_zero.mp hl)
    simp [this, chunks100Go_nil]
  | succ fuel ih =>
    intro l hl
    by_cases h : l = []
    · simp [h, chunks100Go_nil]
    · rw [chunks100Go_cons fuel l h]
      have hpos : 0 < l.length := List.length_pos.mpr h
      have hdrop : (l.drop 100).length ≤ fuel := by
        simp only [List.length_drop]
        omega
      simp only [List.length_cons, ih (l.drop 100) hdrop, List.length_drop]
      omega

theorem chunks100Go_le (fuel : Nat) :
    ∀ l : List Task, l.length ≤ fuel → ∀ c ∈ chunks100Go fuel l, c.length ≤ 100 := by
  induction fuel with
  | zero =>
    intro l hl
    have : l = [] := List.length_eq_zero.mp (Nat.le_zero.mp hl)
    simp [this, chunks100Go_nil]
  | succ fuel ih =>
    intro l hl c hc
    by_cases h : l = []
    · rw [h, chunks100Go_nil] at hc
      simp at hc
    · rw [chunks100Go_cons fuel l h] at hc
      have hpos : 0 < l.length := List.length_pos.mpr h
      have hdrop : (l.drop 100).length ≤ fuel := by
        simp only [List.length_drop]
        omega
      rcases List.mem_cons.mp hc with rfl | hc
      · simpa using List.length_take_le 100 l
      · exact ih (l.drop 100) hdrop c hc

theorem chunks100Go_full (fuel : Nat) :
    ∀ l : List Task, l.length ≤ fuel →
      ∀ c ∈ (chunks100Go fuel l).dropLast, c.length = 100 := by
  induction fuel with
  | zero =>
    intro l hl
    have : l = [] := List.length_eq_zero.mp (Nat.le_zero.mp hl)
    simp [this, chunks100Go_nil]
  | succ fuel ih =>
    intro l hl c hc
    by_cases h : l = []
    · rw [h, chunks100Go_nil] at hc
      simp at hc
    · rw [chunks100Go_cons fuel l h] at hc
      have hpos : 0 < l.length := List.length_pos.mpr h
      have hdrop : (l.drop 100).length ≤ fuel := by
        simp only [List.length_drop]
        omega
      by_cases hrest : chunks100Go fuel (l.drop 100) = []
      · rw [hrest] at hc
        simp at hc
      · rw [List.dropLast_cons_of_ne_nil hrest] at hc
        rcases List.mem_cons.mp hc with rfl | hc
        · have hlen : 100 < l.length := by
            by_contra hle
            push_neg at hle
            have hnil : l.drop 100 = [] := List.drop_eq_nil_of_le hle
            rw [hnil, chunks100Go_nil] at hrest
            exact hrest rfl
          simp only [List.length_take]
          omega
        · exact ih (l.drop 100) hdrop c hc

theorem chunks100_flatten (l : List Task) : (chunks100 l).flatten = l :=
  chunks100Go_flatten l.length l le_rfl

theorem chunks100_length (l : List Task) :
    (chunks100 l).length = (l.length + 99) / 100 :=
  chunks100Go_length l.length l le_rfl

theorem chunks100_le (l : List Task) : ∀ c ∈ chunks100 l, c.length ≤ 100 :=
  chunks100Go_le l.length l le_rfl

theorem chunks100_full (l : List Task) :
    ∀ c ∈ (chunks100 l).dropLast, c.length = 100 :=
  chunks100Go_full l.length l le_rfl

/-- For every scanner run, the enqueued jobs are appended to the queue, number
`ceil(N/100)` for `N` queried tasks, their payloads flatten back to exactly
the queried summaries in query order, every payload holds at most 100
summaries, and every payload except possibly the last holds exactly 100. -/
theorem c2_scanner_partitions_overdue_tasks (now : Int) (store : List Task) (q : List Job) :
    ∃ js : List Job,
      checkOverdueTasks now store q = q ++ js ∧
      js.length = ((store.filter (isOverduePending now)).length + 99) / 100 ∧
      (js.map Job.batchTasks).flatten =
        (store.filter (isOverduePending now)).map taskSummary ∧
      (∀ j ∈ js, j.name = "overdue-tasks-notification" ∧ j.batchTasks.length ≤ 100) ∧
      (∀ j ∈ js.dropLast, j.batchTasks.length = 100) := by
  unfold checkOverdueTasks
  by_cases hpos : (store.filter (isOverduePending now)).length > 0
  · refine ⟨(chunks100 (store.filter (isOverduePending now))).map
      (fun batch => overdueJob (batch.map taskSummary)), ?_, ?_, ?_, ?_, ?_⟩
    · simp [hpos]
    · simp [chunks100_length]
    · rw [List.map_map]
      have hbt : (fun batch => Job.batchTasks (overdueJob (batch.map taskSummary))) =
          fun batch : List Task => batch.map taskSummary := by
        funext b
        rfl
      rw [Function.comp_def, hbt, ← List.map_flatten, chunks100_flatten]
    · intro j hj
      rcases List.mem_map.mp hj with ⟨b, hb, rfl⟩
      refine ⟨rfl, ?_⟩
      have := chunks100_le _ b hb
      simpa [Job.batchTasks, overdueJob] using this
    · intro j hj
      rw [← List.map_dropLast] at hj
      rcases List.mem_map.mp hj with ⟨b, hb, rfl⟩
      have := chunks100_full _ b hb
      simpa [Job.batchTasks, overdueJob] using this
  · have hnil : store.filter (isOverduePending now) = [] :=
      List.length_eq_zero.mp (by omega)
    refine ⟨[], ?_, ?_, ?_, ?_, ?_⟩
    · simp [hpos]
    · simp [hnil]
    · simp [hnil]
    · simp
    · simp

/-- A concrete overdue pending task used in witness scenarios. -/
def demoTask (k : Nat) : Task :=
  { id := toString k
    title := "task"
    status := TaskStatus.PENDING
    dueDate := some (-1)
    userId := "u" }

/-- A store of 150 overdue pending tasks (the scenario named by the spec). -/
def demoStore150 : List Task := (List.range 150).map demoTask

set_option maxRecDepth 4000

/-- Witness: on a store of 150 overdue pending tasks, one scanner run enqueues
exactly 2 jobs, the first carrying 100 summaries and the second 50. -/
theorem c2_scanner_partitions_overdue_tasks_witness :
    (checkOverdueTasks 0 demoStore150 []).map (fun j => j.batchTasks.length) = [100, 50] ∧
    ∃ js : List Job, checkOverdueTasks 0 demoStore150 [] = [] ++ js ∧ js.length = 2 := by
  constructor
  · decide
  · obtain ⟨js, heq, hlen, -⟩ := c2_scanner_partitions_overdue_tasks 0 demoStore150 []
    exact ⟨js, heq, by rw [hlen]; decide⟩

/-- A handler error on a job with fewer than 3 attempts made is re-raised by
`process`; with `attemptsMade = 3` it is converted into a returned
terminal-failure result naming the handler error's message. -/
theorem c4_process_retry_policy (attemptsMade : Nat) (msg : String) :
    (attemptsMade < 3 →
      processOutcome attemptsMade (Except.error msg) = Except.error msg) ∧
    (attemptsMade = 3 →
      processOutcome attemptsMade (Except.error msg) =
        Except.ok { success := false
                    error := some ("Job failed after 3 retries: " ++ msg) }) := by
  constructor
  · intro h
    simp [processOutcome, maxRetries, h]
  · intro h
    subst h
    simp [processOutcome, maxRetries]
    rfl

/-- Witness for the retry policy at `attemptsMade = 2` and `3`. -/
theorem c4_process_retry_policy_witness :
    processOutcome 2 (Except.error "boom") = Except.error "boom" ∧
    processOutcome 3 (Except.error "boom") =
      Except.ok { success := false
                  error := some ("Job failed after 3 retries: boom") } :=
  ⟨(c4_process_retry_policy 2 "boom").1 (by decide),
   (c4_process_retry_policy 3 "boom").2 rfl⟩

/-- TypeORM `findOne({ where: { id } })` over the store: the first row whose
primary key matches. -/
def findTask (store : List Task) (i : String) : Option Task :=
  store.find? (fun t => decide (t.id = i))

/-- The loader `TasksService.findOne`: load the row or throw
`NotFoundException('Task with ID <id> not found')`. -/
def findOne (store : List Task) (i : String) : Except String Task :=
  match findTask store i with
  | some t => Except.ok t
  | none => Except.error ("Task with ID " ++ i ++ " not found")

/-- TypeORM `save`: replace the row carrying the entity's primary key, or
insert the entity when no row carries it. -/
def saveTask (store : List Task) (t : Task) : List Task :=
  if store.any (fun u => decide (u.id = t.id)) then
    store.map (fun u => if u.id = t.id then t else u)
  else store ++ [t]

/-- The patch object of `TasksService.update`; the DTO source file is not
under `src/`, but the patch semantics claims depend on is
`Object.assign(task, updateTaskDto)` in `update` itself: a field present in
the patch overwrites the row's field, an absent field leaves it. -/
structure UpdateTaskDto where
  title : Option String := none
  description : Option String := none
  status : Option TaskStatus := none
  priority : Option TaskPriority := none
  dueDate : Option Int := none
deriving DecidableEq, Repr

/-- The patch application `Object.assign(task, updateTaskDto)`. -/
def applyUpdate (t : Task) (dto : UpdateTaskDto) : Task :=
  { t with
    title := dto.title.getD t.title
    description :=
      match dto.description with
      | some d => some d
      | none => t.description
    status := dto.status.getD t.status
    priority := dto.priority.getD t.priority
    dueDate :=
      match dto.dueDate with
      | some d => some d
      | none => t.dueDate }

/-- The retry loop of `TasksService.enqueueWithRetry`: up to `n` more
`queue.add` attempts starting at attempt index `i`; `outcome` tells whether
the queue accepts a given attempt.  On the first accepted attempt the job is
appended and the loop returns; once attempts are exhausted the last error is
thrown.  The sleep `backoffMs * (i + 1)` between attempts only affects
timing. -/
def enqueueWithRetryGo (outcome : Nat → Bool) (q : List Job) (j : Job) :
    Nat → Nat → Except Unit (List Job)
  | 0, _ => Except.error ()
  | n + 1, i =>
    if outcome i then Except.ok (q ++ [j])
    else enqueueWithRetryGo outcome q j n (i + 1)

/-- The helper `TasksService.enqueueWithRetry(name, data)` with the default 3 attempts;
every add passes options `{ removeOnComplete: true, attempts: 3 }`. -/
def enqueueWithRetry (outcome : Nat → Bool) (q : List Job)
    (name : String) (payload : JobPayload) : Except Unit (List Job) :=
  enqueueWithRetryGo outcome q
    { name := name, payload := payload, opts := statusUpdateJobOpts } 3 0

/-- The mutator `TasksService.update`: open a transaction, load the task, apply the
patch, save through the transaction manager, and when the pre-mutation status
differs from the post-mutation status best-effort enqueue one
`task-status-update` job `{taskId, status}` (enqueue failure is caught and
logged); commit and return the updated task.  A missing task re-raises before
any mutation. -/
def update (outcome : Nat → Bool) (store : List Task) (q : List Job)
    (i : String) (dto : UpdateTaskDto) :
    Except String (List Task × List Job × Task) :=
  match findOne store i with
  | Except.error e => Except.error e
  | Except.ok task =>
    let originalStatus := task.status
    let updatedTask := applyUpdate task dto
    let store1 := saveTask store updatedTask
    let q1 :=
      if originalStatus ≠ updatedTask.status then
        match enqueueWithRetry outcome q "task-status-update"
            (JobPayload.statusUpdate updatedTask.id updatedTask.status) with
        | Except.ok q2 => q2
        | Except.error _ => q
      else q
    Except.ok (store1, q1, updatedTask)

/-- The creation input of `TasksService.create`; the DTO source file is not
under `src/`.  Fields mirror the entity's columns, with the entity defaults
(status PENDING, priority MEDIUM) applied for absent fields. -/
structure CreateTaskDto where
  title : String
  description : Option String := none
  status : Option TaskStatus := none
  priority : Option TaskPriority := none
  dueDate : Option Int := none
  userId : String
deriving DecidableEq, Repr

/-- The entity built by `repository.create(dto)` plus entity column defaults; the generated uuid
primary key is passed explicitly since key generation is environmental. -/
def taskFromDto (newId : String) (dto : CreateTaskDto) : Task :=
  { id := newId
    title := dto.title
    description := dto.description
    status := dto.status.getD TaskStatus.PENDING
    priority := dto.priority.getD TaskPriority.MEDIUM
    dueDate := dto.dueDate
    userId := dto.userId }

/-- The creator `TasksService.create`: save the new row inside a transaction, best-effort
enqueue a `task-status-update` job carrying the saved task's status (enqueue
failure is caught and logged), commit, return the saved task. -/
def create (outcome : Nat → Bool) (store : List Task) (q : List Job)
    (newId : String) (dto : CreateTaskDto) :
    Except String (List Task × List Job × Task) :=
  let savedTask := taskFromDto newId dto
  let store1 := saveTask store savedTask
  let q1 :=
    match enqueueWithRetry outcome q "task-status-update"
        (JobPayload.statusUpdate savedTask.id savedTask.status) with
    | Except.ok q2 => q2
    | Except.error _ => q
  Except.ok (store1, q1, savedTask)

theorem enqueueWithRetryGo_ok (outcome : Nat → Bool) (q : List Job) (j : Job) :
    ∀ n i, (∃ k, k < n ∧ outcome (i + k) = true) →
      enqueueWithRetryGo outcome q j n i = Except.ok (q ++ [j]) := by
  intro n
  induction n with
  | zero =>
    intro i ⟨k, hk, _⟩
    omega
  | succ n ih =>
    intro i ⟨k, hk, hout⟩
    by_cases h0 : outcome i = true
    · simp [enqueueWithRetryGo, h0]
    · have hk0 : k ≠ 0 := by
        intro h
        rw [h] at hout
        simp at hout
        exact h0 (by simpa using hout)
      rw [enqueueWithRetryGo]
      simp only [h0, if_false]
      exact ih (i + 1) ⟨k - 1, by omega, by rw [show i + 1 + (k - 1) = i + k by omega]; exact hout⟩

theorem enqueueWithRetryGo_err (outcome : Nat → Bool) (q : List Job) (j : Job) :
    ∀ n i, (∀ k, k < n → outcome (i + k) = false) →
      enqueueWithRetryGo outcome q j n i = Except.error () := by
  intro n
  induction n with
  | zero =>
    intro i _
    rfl
  | succ n ih =>
    intro i hall
    have h0 : outcome i = false := by simpa using hall 0 (by omega)
    rw [enqueueWithRetryGo]
    simp only [h0, Bool.false_eq_true, if_false]
    exact ih (i + 1) (fun k hk => by
      rw [show i + 1 + k = i + (k + 1) by omega]
      exact hall (k + 1) (by omega))

theorem enqueueWithRetry_ok (outcome : Nat → Bool) (q : List Job)
    (name : String) (payload : JobPayload)
    (h : ∃ k, k < 3 ∧ outcome k = true) :
    enqueueWithRetry outcome q name payload =
      Except.ok (q ++ [{ name := name, payload := payload, opts := statusUpdateJobOpts }]) := by
  unfold enqueueWithRetry
  exact enqueueWithRetryGo_ok outcome q _ 3 0 (by simpa using h)

theorem enqueueWithRetry_err (outcome : Nat → Bool) (q : List Job)
    (name : String) (payload : JobPayload)
    (h : ∀ k, outcome k = false) :
    enqueueWithRetry outcome q name payload = Except.error () := by
  unfold enqueueWithRetry
  exact enqueueWithRetryGo_err outcome q _ 3 0 (fun k _ => h _)

theorem mem_saveTask (store : List Task) (t : Task) : t ∈ saveTask store t := by
  unfold saveTask
  by_cases h : store.any (fun u => decide (u.id = t.id)) = true
  · rw [if_pos h]
    obtain ⟨u, hu, hid⟩ := List.any_eq_true.mp h
    exact List.mem_map.mpr ⟨u, hu, by simp [of_decide_eq_true hid]⟩
  · rw [if_neg h]
    simp

/-- When the queue accepts one of the 3 add attempts, `update` on an existing
task appends exactly one `task-status-update` job carrying the post-mutation
status if the status changed, and appends no job if it is unchanged. -/
theorem c1_update_enqueues_exactly_on_status_change
    (outcome : Nat → Bool) (store : List Task) (q : List Job)
    (i : String) (dto : UpdateTaskDto) (task : Task)
    (hfound : findOne store i = Except.ok task)
    (havail : ∃ k, k < 3 ∧ outcome k = true) :
    update outcome store q i dto =
      Except.ok (saveTask store (applyUpdate task dto),
        (if task.status ≠ (applyUpdate task dto).status
         then q ++ [statusUpdateJob (applyUpdate task dto).id (applyUpdate task dto).status]
         else q),
        applyUpdate task dto) := by
  unfold update
  rw [hfound]
  by_cases hst : task.status = (applyUpdate task dto).status
  · simp [hst]
  · simp only [ne_eq, hst, not_false_iff, if_true]
    rw [enqueueWithRetry_ok outcome q _ _ havail]
    rfl

/-- Concrete C1 run: completing a pending task `T1` (with a live queue)
returns the completed task and enqueues exactly one status-update job. -/
theorem c1_update_enqueues_exactly_on_status_change_witness :
    update (fun _ => true) [{ id := "T1", title := "t1", userId := "u" }] [] "T1"
        { status := some TaskStatus.COMPLETED } =
      Except.ok ([{ id := "T1", title := "t1", status := TaskStatus.COMPLETED, userId := "u" }],
        [statusUpdateJob "T1" TaskStatus.COMPLETED],
        { id := "T1", title := "t1", status := TaskStatus.COMPLETED, userId := "u" }) := by
  rw [c1_update_enqueues_exactly_on_status_change (fun _ => true)
    [{ id := "T1", title := "t1", userId := "u" }] [] "T1"
    { status := some TaskStatus.COMPLETED } { id := "T1", title := "t1", userId := "u" }
    rfl ⟨0, by omega, rfl⟩]
  rfl

/-- When every add attempt of the enqueue helper fails, `update` still
returns successfully (the transaction commits), the mutated task persists in
the store, and no job is enqueued; the failure never propagates. -/
theorem c5_update_commits_despite_enqueue_failure
    (outcome : Nat → Bool) (store : List Task) (q : List Job)
    (i : String) (dto : UpdateTaskDto) (task : Task)
    (hfound : findOne store i = Except.ok task)
    (hfail : ∀ k, outcome k = false) :
    update outcome store q i dto =
      Except.ok (saveTask store (applyUpdate task dto), q, applyUpdate task dto) ∧
    applyUpdate task dto ∈ saveTask store (applyUpdate task dto) := by
  refine ⟨?_, mem_saveTask _ _⟩
  unfold update
  rw [hfound]
  by_cases hst : task.status = (applyUpdate task dto).status
  · simp [hst]
  · simp only [ne_eq, hst, not_false_iff, if_true]
    rw [enqueueWithRetry_err outcome q _ _ hfail]

/-- Concrete C5 run: completing pending task `T1` with a dead queue still
commits the COMPLETED row and enqueues nothing. -/
theorem c5_update_commits_despite_enqueue_failure_witness :
    update (fun _ => false) [{ id := "T1", title := "t1", userId := "u" }] [] "T1"
        { status := some TaskStatus.COMPLETED } =
      Except.ok ([{ id := "T1", title := "t1", status := TaskStatus.COMPLETED, userId := "u" }],
        [],
        { id := "T1", title := "t1", status := TaskStatus.COMPLETED, userId := "u" }) := by
  rw [(c5_update_commits_despite_enqueue_failure (fun _ => false)
    [{ id := "T1", title := "t1", userId := "u" }] [] "T1"
    { status := some TaskStatus.COMPLETED } { id := "T1", title := "t1", userId := "u" }
    rfl (fun _ => rfl)).1]
  rfl

/-- When the queue accepts one of the 3 add attempts, every successful
`create` enqueues exactly one `task-status-update` job carrying the newly
created task's initial status, although no old-to-new status change
occurred. -/
theorem c10_create_enqueues_initial_status
    (outcome : Nat → Bool) (store : List Task) (q : List Job)
    (newId : String) (dto : CreateTaskDto)
    (havail : ∃ k, k < 3 ∧ outcome k = true) :
    create outcome store q newId dto =
      Except.ok (saveTask store (taskFromDto newId dto),
        q ++ [statusUpdateJob newId (taskFromDto newId dto).status],
        taskFromDto newId dto) := by
  unfold create
  simp only [enqueueWithRetry_ok outcome q _ _ havail]
  rfl

/-- Concrete C10 run: creating a task with default status enqueues one job
carrying PENDING. -/
theorem c10_create_enqueues_initial_status_witness :
    create (fun _ => true) [] [] "N1" { title := "new", userId := "u" } =
      Except.ok ([{ id := "N1", title := "new", userId := "u" }],
        [statusUpdateJob "N1" TaskStatus.PENDING],
        { id := "N1", title := "new", userId := "u" }) := by
  rw [c10_create_enqueues_initial_status (fun _ => true) [] [] "N1"
    { title := "new", userId := "u" } ⟨0, by omega, rfl⟩]
  rfl

/-- The two batch actions accepted by `TasksService.batchProcess`. -/
inductive BatchAction where
  | complete
  | delete
deriving DecidableEq, Repr

/-- The `result` value stored in a successful per-item outcome: the saved row
for a complete, the `{id, deleted: true}` marker for a delete. -/
inductive BatchOpResult where
  | saved (t : Task)
  | deleted (id : String)
deriving DecidableEq, Repr

/-- One per-item entry of the array returned by `batchProcess`:
`{taskId, success, result}` or `{taskId, success, error}`. -/
structure BatchItemResult where
  taskId : String
  success : Bool
  result : Option BatchOpResult := none
  error : Option String := none
deriving DecidableEq, Repr

/-- TypeORM `manager.remove`: delete the rows carrying the entity's id. -/
def removeTask (store : List Task) (i : String) : List Task :=
  store.filter (fun u => !(decide (u.id = i)))

/-- The body of one iteration of `batchProcess`'s per-id loop: look the row
up in the transactional store, complete (set status COMPLETED, save, and
best-effort add one `task-status-update` job — `queueOk` tells whether the
queue accepts it; a refused add is caught and logged) or delete it; a missing
row yields a captured `Task <id> not found` failure entry and mutates
nothing. -/
def processBatchItem (queueOk : Bool) (action : BatchAction)
    (store : List Task) (q : List Job) (taskId : String) :
    List Task × List Job × BatchItemResult :=
  match findTask store taskId, action with
  | none, _ =>
    (store, q,
      { taskId := taskId, success := false,
        error := some ("Task " ++ taskId ++ " not found") })
  | some task, BatchAction.complete =>
    let completedTask := { task with status := TaskStatus.COMPLETED }
    let store1 := saveTask store completedTask
    let q1 :=
      if queueOk then q ++ [statusUpdateJob completedTask.id completedTask.status] else q
    (store1, q1,
      { taskId := taskId, success := true, result := some (BatchOpResult.saved completedTask) })
  | some _, BatchAction.delete =>
    (removeTask store taskId, q,
      { taskId := taskId, success := true, result := some (BatchOpResult.deleted taskId) })

/-- The per-id loop of `batchProcess`, accumulating per-item results in input
order; each item's failure is captured in its entry and the loop proceeds. -/
def batchProcessGo (queueOk : Bool) (action : BatchAction) :
    List Task → List Job → List String → List Task × List Job × List BatchItemResult
  | store, q, [] => (store, q, [])
  | store, q, taskId :: rest =>
    let s1 := processBatchItem queueOk action store q taskId
    let s2 := batchProcessGo queueOk action s1.1 s1.2.1 rest
    (s2.1, s2.2.1, s1.2.2 :: s2.2.2)

/-- The bulk operation `TasksService.batchProcess({tasks, action})`: run the per-id loop inside
one shared transaction and commit; returning the triple models the committed
store, queue, and result array (only a commit failure would trigger the outer
rollback path, and the store is pure here). -/
def batchProcess (queueOk : Bool) (store : List Task) (q : List Job)
    (taskIds : List String) (action : BatchAction) :
    List Task × List Job × List BatchItemResult :=
  batchProcessGo queueOk action store q taskIds

theorem findTask_some (store : List Task) (i : String) (t : Task)
    (h : findTask store i = some t) : t ∈ store ∧ t.id = i := by
  unfold findTask at h
  have hp := List.find?_some h
  simp only [decide_eq_true_eq] at hp
  exact ⟨List.mem_of_find?_eq_some h, hp⟩

theorem processBatchItem_complete_ids (queueOk : Bool) (store : List Task)
    (q : List Job) (i : String) :
    (processBatchItem queueOk BatchAction.complete store q i).1.map Task.id =
      store.map Task.id := by
  unfold processBatchItem
  cases hfind : findTask store i with
  | none => rfl
  | some task =>
    have htask : task ∈ store := List.mem_of_find?_eq_some hfind
    simp only
    unfold saveTask
    have hany : store.any (fun u => decide (u.id = task.id)) = true :=
      List.any_eq_true.mpr ⟨task, htask, by simp⟩
    rw [if_pos (by simpa using hany)]
    rw [List.map_map]
    apply List.map_congr_left
    intro u _
    by_cases hu : u.id = task.id
    · simp [hu]
    · simp [hu]

theorem batchProcessGo_complete_ids (queueOk : Bool) :
    ∀ (ids : List String) (store : List Task) (q : List Job),
      (batchProcessGo queueOk BatchAction.complete store q ids).1.map Task.id =
        store.map Task.id := by
  intro ids
  induction ids with
  | nil => intro store q; rfl
  | cons i rest ih =>
    intro store q
    unfold batchProcessGo
    simp only
    rw [ih, processBatchItem_complete_ids]

theorem batchProcessGo_complete_untouched (queueOk : Bool) :
    ∀ (ids : List String) (store : List Task) (q : List Job),
      ∀ t ∈ (batchProcessGo queueOk BatchAction.complete store q ids).1,
        t.id ∉ ids → t ∈ store := by
  intro ids
  induction ids with
  | nil =>
    intro store q t ht _
    exact ht
  | cons i rest ih =>
    intro store q t ht hnot
    have hnr : t.id ∉ rest := fun h => hnot (List.mem_cons_of_mem _ h)
    have hni : t.id ≠ i := fun h => hnot (h ▸ List.mem_cons_self _ _)
    unfold batchProcessGo at ht
    simp only at ht
    have ht1 := ih _ _ t ht hnr
    revert ht1
    unfold processBatchItem
    cases hfind : findTask store i with
    | none => exact fun h => h
    | some task =>
      simp only
      unfold saveTask
      by_cases hany : store.any (fun u => decide (u.id = task.id)) = true
      · rw [if_pos hany]
        intro hmem
        obtain ⟨u, hu, hequ⟩ := List.mem_map.mp hmem
        by_cases huid : u.id = task.id
        · exfalso
          rw [if_pos huid] at hequ
          apply hni
          rw [← hequ]
          exact (findTask_some store i task hfind).2
        · rw [if_neg huid] at hequ
          exact hequ ▸ hu
      · rw [if_neg hany]
        intro hmem
        rcases List.mem_append.mp hmem with h | h
        · exact h
        · exfalso
          apply hni
          have heq : t = { task with status := TaskStatus.COMPLETED } := by simpa using h
          rw [heq]
          exact (findTask_some store i task hfind).2

theorem findTask_none_iff (store : List Task) (i : String) :
    findTask store i = none ↔ i ∉ store.map Task.id := by
  unfold findTask
  rw [List.find?_eq_none]
  constructor
  · intro h hmem
    obtain ⟨t, ht, hid⟩ := List.mem_map.mp hmem
    exact absurd (by simpa using h t ht) (by simp [hid])
  · intro h t ht
    simp only [decide_eq_true_eq]
    intro hid
    exact h (List.mem_map.mpr ⟨t, ht, hid⟩)

theorem saveTask_ids (store : List Task) (t : Task)
    (h : t.id ∈ store.map Task.id) :
    (saveTask store t).map Task.id = store.map Task.id := by
  unfold saveTask
  obtain ⟨u, hu, hid⟩ := List.mem_map.mp h
  rw [if_pos (List.any_eq_true.mpr ⟨u, hu, by simp [hid]⟩)]
  rw [List.map_map]
  apply List.map_congr_left
  intro v _
  by_cases hv : v.id = t.id
  · simp [hv]
  · simp [hv]

theorem batchProcessGo_complete_proj (queueOk : Bool) :
    ∀ (ids : List String) (store : List Task) (q : List Job),
      (batchProcessGo queueOk BatchAction.complete store q ids).2.2.map
          (fun r => (r.taskId, r.success, r.error)) =
        ids.map (fun i =>
          if i ∈ store.map Task.id then (i, true, (none : Option String))
          else (i, false, some ("Task " ++ i ++ " not found"))) := by
  intro ids
  induction ids with
  | nil => intro store q; rfl
  | cons i rest ih =>
    intro store q
    unfold batchProcessGo
    simp only [List.map_cons]
    cases hfind : findTask store i with
    | none =>
      have hni : i ∉ store.map Task.id := (findTask_none_iff store i).mp hfind
      simp only [processBatchItem, hfind, if_neg hni]
      exact congrArg _ (ih store q)
    | some task =>
      have hmem : i ∈ store.map Task.id := by
        obtain ⟨ht, hid⟩ := findTask_some store i task hfind
        exact List.mem_map.mpr ⟨task, ht, hid⟩
      simp only [processBatchItem, hfind, if_pos hmem]
      refine congrArg _ ?_
      rw [ih]
      have hcid : (Task.id { task with status := TaskStatus.COMPLETED }) ∈ store.map Task.id := by
        have hid := (findTask_some store i task hfind).2
        show task.id ∈ store.map Task.id
        rw [hid]
        exact hmem
      rw [saveTask_ids store _ hcid]

theorem processBatchItem_complete_sets (queueOk : Bool) (store : List Task)
    (q : List Job) (i : String) :
    ∀ t ∈ (processBatchItem queueOk BatchAction.complete store q i).1,
      t.id = i → t.status = TaskStatus.COMPLETED := by
  intro t ht hid
  unfold processBatchItem at ht
  cases hfind : findTask store i with
  | none =>
    rw [hfind] at ht
    simp only at ht
    have := (findTask_none_iff store i).mp hfind
    exact absurd (List.mem_map.mpr ⟨t, ht, hid⟩) this
  | some task =>
    rw [hfind] at ht
    simp only at ht
    obtain ⟨htask, htid⟩ := findTask_some store i task hfind
    unfold saveTask at ht
    have hany : store.any (fun u => decide (u.id = Task.id { task with status := TaskStatus.COMPLETED })) = true :=
      List.any_eq_true.mpr ⟨task, htask, by simp⟩
    rw [if_pos hany] at ht
    obtain ⟨u, hu, hequ⟩ := List.mem_map.mp ht
    by_cases huid : u.id = Task.id { task with status := TaskStatus.COMPLETED }
    · rw [if_pos huid] at hequ
      rw [← hequ]
    · rw [if_neg huid] at hequ
      exfalso
      apply huid
      rw [hequ]
      simpa [htid] using hid

theorem batchProcessGo_complete_sets (queueOk : Bool) :
    ∀ (ids : List String) (store : List Task) (q : List Job),
      ∀ t ∈ (batchProcessGo queueOk BatchAction.complete store q ids).1,
        t.id ∈ ids → t.status = TaskStatus.COMPLETED := by
  intro ids
  induction ids with
  | nil =>
    intro store q t _ hmem
    exact absurd hmem (List.not_mem_nil _)
  | cons i rest ih =>
    intro store q t ht hmem
    by_cases hr : t.id ∈ rest
    · exact ih _ _ t (by
        unfold batchProcessGo at ht
        exact ht) hr
    · have hid : t.id = i := by
        rcases List.mem_cons.mp hmem with h | h
        · exact h
        · exact absurd h hr
      unfold batchProcessGo at ht
      simp only at ht
      have ht1 := batchProcessGo_complete_untouched queueOk rest _ _ t ht hr
      exact processBatchItem_complete_sets queueOk store q i t ht1 hid

/-- Batch-complete produces, in input order, one per-item entry per id — a
`{taskId, success: true}` entry for each id present in the store and a
`{taskId, success: false, error: 'Task <id> not found'}` entry for each
missing id (a missing id never aborts the remaining items) — and every task
targeted by the batch ends with status COMPLETED in the committed store. -/
theorem c7_batch_complete_missing_ids (queueOk : Bool)
    (ids : List String) (store : List Task) (q : List Job) :
    (batchProcess queueOk store q ids BatchAction.complete).2.2.map
        (fun r => (r.taskId, r.success, r.error)) =
      ids.map (fun i =>
        if i ∈ store.map Task.id then (i, true, (none : Option String))
        else (i, false, some ("Task " ++ i ++ " not found"))) ∧
    (∀ t ∈ (batchProcess queueOk store q ids BatchAction.complete).1,
      t.id ∈ ids → t.status = TaskStatus.COMPLETED) :=
  ⟨batchProcessGo_complete_proj queueOk ids store q,
   batchProcessGo_complete_sets queueOk ids store q⟩

/-- Concrete C7 run: batch-complete over `["T1", "missing"]` on a store
holding only `T1` yields one success and one captured not-found failure, and
commits `T1` as COMPLETED. -/
theorem c7_batch_complete_missing_ids_witness :
    (batchProcess true [{ id := "T1", title := "t1", userId := "u" }] []
        ["T1", "missing"] BatchAction.complete).2.2.map
        (fun r => (r.taskId, r.success, r.error)) =
      [("T1", true, none), ("missing", false, some "Task missing not found")] ∧
    ({ id := "T1", title := "t1", status := TaskStatus.COMPLETED, userId := "u" } : Task).status =
      TaskStatus.COMPLETED := by
  constructor
  · rw [(c7_batch_complete_missing_ids true ["T1", "missing"]
      [{ id := "T1", title := "t1", userId := "u" }] []).1]
    decide
  · exact (c7_batch_complete_missing_ids true ["T1", "missing"]
      [{ id := "T1", title := "t1", userId := "u" }] []).2
      { id := "T1", title := "t1", status := TaskStatus.COMPLETED, userId := "u" }
      (by decide) (by decide)

/-- The option policy the spec asserts for every enqueued job, stated from
the spec's words (attempts 3, exponential backoff base 1000ms, removed on
success; status-update jobs also removed on failure, overdue-notification
jobs retained on failure), to be compared with the options the code passes. -/
def claimedPipelineJobOpts (j : Job) : Prop :=
  j.opts.attempts = some 3 ∧
  j.opts.backoff = some { type := "exponential", delay := 1000 } ∧
  j.opts.removeOnComplete = some true ∧
  (j.name = "task-status-update" → j.opts.removeOnFail = some true) ∧
  (j.name = "overdue-tasks-notification" → j.opts.removeOnFail = some false)

theorem enqueueWithRetryGo_ok_shape (outcome : Nat → Bool) (q : List Job) (j : Job) :
    ∀ n i q2, enqueueWithRetryGo outcome q j n i = Except.ok q2 → q2 = q ++ [j] := by
  intro n
  induction n with
  | zero =>
    intro i q2 h
    exact absurd h (by simp [enqueueWithRetryGo])
  | succ n ih =>
    intro i q2 h
    rw [enqueueWithRetryGo] at h
    by_cases h0 : outcome i = true
    · rw [if_pos h0] at h
      exact (Except.ok.inj h).symm
    · rw [if_neg (by simp [h0])] at h
      exact ih (i + 1) q2 h

theorem batchProcessGo_queue_shape (queueOk : Bool) (action : BatchAction) :
    ∀ (ids : List String) (store : List Task) (q : List Job),
      ∃ ex : List Job, (batchProcessGo queueOk action store q ids).2.1 = q ++ ex ∧
        ∀ j ∈ ex, j.opts = statusUpdateJobOpts := by
  intro ids
  induction ids with
  | nil =>
    intro store q
    exact ⟨[], by simp [batchProcessGo], by simp⟩
  | cons i rest ih =>
    intro store q
    unfold batchProcessGo
    simp only
    unfold processBatchItem
    cases hfind : findTask store i with
    | none =>
      obtain ⟨ex, hex, hopts⟩ := ih store q
      exact ⟨ex, hex, hopts⟩
    | some task =>
      cases action with
      | complete =>
        dsimp only
        by_cases hq : queueOk = true
        · obtain ⟨ex, hex, hopts⟩ := ih (saveTask store { task with status := TaskStatus.COMPLETED })
            (q ++ [statusUpdateJob task.id TaskStatus.COMPLETED])
          refine ⟨statusUpdateJob task.id TaskStatus.COMPLETED :: ex, ?_, ?_⟩
          · rw [if_pos hq, hex]
            simp
          · intro j hj
            rcases List.mem_cons.mp hj with rfl | hj
            · rfl
            · exact hopts j hj
        · obtain ⟨ex, hex, hopts⟩ := ih (saveTask store { task with status := TaskStatus.COMPLETED }) q
          refine ⟨ex, ?_, hopts⟩
          rw [if_neg hq]
          exact hex
      | delete =>
        obtain ⟨ex, hex, hopts⟩ := ih (removeTask store i) q
        exact ⟨ex, hex, hopts⟩

/-- The claim's option policy fails on the code: a status change committed by
`update` (live queue) enqueues its `task-status-update` job with
`{ attempts: 3, removeOnComplete: true }` only — no backoff option and no
removeOnFail option — contradicting the claimed exponential backoff and
removed-on-failure policy for that job kind. -/
theorem c9_job_options_counterexample :
    update (fun _ => true) [{ id := "T1", title := "t1", userId := "u" }] [] "T1"
        { status := some TaskStatus.COMPLETED } =
      Except.ok ([{ id := "T1", title := "t1", status := TaskStatus.COMPLETED, userId := "u" }],
        [statusUpdateJob "T1" TaskStatus.COMPLETED],
        { id := "T1", title := "t1", status := TaskStatus.COMPLETED, userId := "u" }) ∧
    ¬ claimedPipelineJobOpts (statusUpdateJob "T1" TaskStatus.COMPLETED) := by
  refine ⟨rfl, ?_⟩
  intro h
  exact Option.noConfusion h.2.1

/-- Amended C9: every enqueued job carries attempts 3 and removeOnComplete
true; overdue-notification jobs additionally carry exponential backoff with
base delay 1000ms and removeOnFail false; task-status-update jobs (from the
enqueue-with-retry helper and from batch-complete) are enqueued with no
backoff option and no removeOnFail option, so they are retained on failure
under the queue's default rather than removed. -/
theorem c9_amended_job_options :
    (∀ (outcome : Nat → Bool) (q : List Job) (name : String) (payload : JobPayload)
        (q2 : List Job),
      enqueueWithRetry outcome q name payload = Except.ok q2 →
      q2 = q ++ [{ name := name, payload := payload, opts := statusUpdateJobOpts }]) ∧
    (∀ (queueOk : Bool) (action : BatchAction) (store : List Task) (q : List Job)
        (ids : List String),
      ∀ j ∈ (batchProcess queueOk store q ids action).2.1.drop q.length,
        j.opts = statusUpdateJobOpts) ∧
    (∀ (now : Int) (store : List Task) (q : List Job),
      ∀ j ∈ (checkOverdueTasks now store q).drop q.length,
        j.name = "overdue-tasks-notification" ∧ j.opts = overdueJobOpts) ∧
    statusUpdateJobOpts =
      { attempts := some 3, backoff := none,
        removeOnComplete := some true, removeOnFail := none } ∧
    overdueJobOpts =
      { attempts := some 3, backoff := some { type := "exponential", delay := 1000 },
        removeOnComplete := some true, removeOnFail := some false } := by
  refine ⟨?_, ?_, ?_, rfl, rfl⟩
  · intro outcome q name payload q2 h
    exact enqueueWithRetryGo_ok_shape outcome q _ 3 0 q2 h
  · intro queueOk action store q ids j hj
    obtain ⟨ex, hex, hopts⟩ := batchProcessGo_queue_shape queueOk action ids store q
    rw [show (batchProcess queueOk store q ids action).2.1 =
      (batchProcessGo queueOk action store q ids).2.1 from rfl, hex] at hj
    rw [List.drop_left] at hj
    exact hopts j hj
  · intro now store q j hj
    unfold checkOverdueTasks at hj
    by_cases hpos : (store.filter (isOverduePending now)).length > 0
    · simp only [hpos, if_true] at hj
      rw [List.drop_left] at hj
      obtain ⟨b, _, rfl⟩ := List.mem_map.mp hj
      exact ⟨rfl, rfl⟩
    · simp only [hpos, if_false] at hj
      rw [List.drop_length] at hj
      exact absurd hj (List.not_mem_nil j)

/-- Concrete C9-amended runs: the retry helper appends exactly the
no-backoff status-update job, and the scanner's job carries the full overdue
options. -/
theorem c9_amended_job_options_witness :
    ([statusUpdateJob "T1" TaskStatus.COMPLETED] =
      [] ++ [{ name := "task-status-update",
               payload := JobPayload.statusUpdate "T1" TaskStatus.COMPLETED,
               opts := statusUpdateJobOpts }]) ∧
    ((overdueJob [taskSummary { id := "D1", title := "d", dueDate := some (-5) }]).name =
        "overdue-tasks-notification" ∧
      (overdueJob [taskSummary { id := "D1", title := "d", dueDate := some (-5) }]).opts =
        overdueJobOpts) :=
  ⟨c9_amended_job_options.1 (fun _ => true) [] "task-status-update"
      (JobPayload.statusUpdate "T1" TaskStatus.COMPLETED)
      [statusUpdateJob "T1" TaskStatus.COMPLETED] rfl,
   c9_amended_job_options.2.2.1 0 [{ id := "D1", title := "d", dueDate := some (-5) }] []
      (overdueJob [taskSummary { id := "D1", title := "d", dueDate := some (-5) }])
      (by decide)⟩

/-- Modelled from the spec: the enumeration file's wire strings, as listed by
the spec's job payload schema (`"PENDING" | "IN_PROGRESS" | "COMPLETED"`);
`Object.values(TaskStatus)` in the handler's validation enumerates them. -/
def statusWireValues : List String := ["PENDING", "IN_PROGRESS", "COMPLETED"]

/-- Parse a payload status string against the enumeration's wire values
(`Object.values(TaskStatus).includes(status)` plus the value it denotes). -/
def parseStatus (str : String) : Option TaskStatus :=
  if str = "PENDING" then some TaskStatus.PENDING
  else if str = "IN_PROGRESS" then some TaskStatus.IN_PROGRESS
  else if str = "COMPLETED" then some TaskStatus.COMPLETED
  else none

/-- The writer `TasksService.updateStatus`: `findOne` (throwing not-found), set the
status field, and `tasksRepository.save` — a direct repository write that is
not routed through any caller-opened query-runner transaction. -/
def updateStatus (store : List Task) (i : String) (status : TaskStatus) :
    Except String (List Task × Task) :=
  match findOne store i with
  | Except.error e => Except.error e
  | Except.ok task =>
    let task1 := { task with status := status }
    Except.ok (saveTask store task1, task1)

/-- The result object of `TaskProcessorService.handleStatusUpdate`. -/
structure StatusUpdateResult where
  success : Bool
  taskId : Option String := none
  newStatus : Option TaskStatus := none
  error : Option String := none
deriving DecidableEq, Repr

/-- The handler `TaskProcessorService.handleStatusUpdate`: destructure `{taskId, status}`
from the job data (JS falsiness rejects an absent or empty field), validate
the status against the enumeration's values, open a query-runner transaction,
call `tasksService.updateStatus` — whose repository write takes effect
immediately and is outside the opened transaction, `updateStatusWithManager`
being left uncalled — then commit.  `commitOk` models whether
`commitTransaction` itself succeeds; on a thrown store error the handler
rolls the opened transaction back and re-raises.  The returned list is the
visible stored state after the call. -/
def handleStatusUpdate (commitOk : Bool) (store : List Task)
    (taskId : Option String) (status : Option String) :
    List Task × Except String StatusUpdateResult :=
  if taskId = none ∨ taskId = some "" ∨ status = none ∨ status = some "" then
    (store, Except.ok { success := false, error := some "Missing required data" })
  else
    match parseStatus (status.getD "") with
    | none =>
      (store,
        Except.ok
          { success := false
            error := some ("Invalid status value. Must be one of: " ++
              String.intercalate ", " statusWireValues) })
    | some s =>
      match updateStatus store (taskId.getD "") s with
      | Except.error e => (store, Except.error e)
      | Except.ok (store1, task) =>
        if commitOk then
          (store1,
            Except.ok { success := true, taskId := some task.id, newStatus := some task.status })
        else (store1, Except.error "commit failed")

theorem parseStatus_some_ne_empty (str : String) (s : TaskStatus)
    (h : parseStatus str = some s) : str ≠ "" := by
  intro he
  subst he
  rw [show parseStatus "" = none by decide] at h
  exact Option.noConfusion h

theorem find?_map_pred (f : Task → Task) (p : Task → Bool)
    (hp : ∀ u, p (f u) = p u) :
    ∀ l : List Task, (l.map f).find? p = (l.find? p).map f := by
  intro l
  induction l with
  | nil => rfl
  | cons u rest ih =>
    simp only [List.map_cons]
    by_cases hu : p u = true
    · rw [List.find?_cons_of_pos _ (by rw [hp]; exact hu), List.find?_cons_of_pos _ hu]
      rfl
    · rw [List.find?_cons_of_neg _ (by rw [hp]; simpa using hu),
        List.find?_cons_of_neg _ (by simpa using hu)]
      exact ih

theorem saveTask_found (store : List Task) (t' task : Task)
    (hmem : task ∈ store) (hid : task.id = t'.id) :
    saveTask store t' = store.map (fun u => if u.id = t'.id then t' else u) := by
  unfold saveTask
  rw [if_pos (List.any_eq_true.mpr ⟨task, hmem, by simp [hid]⟩)]

theorem saveTask_self (store : List Task) (t : Task) (hmem : t ∈ store)
    (hrepl : ∀ u ∈ store, u.id = t.id → u = t) :
    saveTask store t = store := by
  rw [saveTask_found store t t hmem rfl]
  conv_rhs => rw [← List.map_id store]
  apply List.map_congr_left
  intro u hu
  by_cases huid : u.id = t.id
  · rw [if_pos huid, hrepl u hu huid]
    rfl
  · rw [if_neg huid]
    rfl

theorem handleStatusUpdate_run (store : List Task) (i str : String)
    (s : TaskStatus) (task : Task)
    (hi : i ≠ "") (hparse : parseStatus str = some s)
    (hfind : findTask store i = some task) :
    handleStatusUpdate true store (some i) (some str) =
      (saveTask store { task with status := s },
        Except.ok { success := true, taskId := some task.id, newStatus := some s }) := by
  have hstr : str ≠ "" := parseStatus_some_ne_empty str s hparse
  unfold handleStatusUpdate
  rw [if_neg (by simp [hi, hstr])]
  simp only [Option.getD_some]
  rw [hparse]
  unfold updateStatus findOne
  rw [hfind]
  rfl

/-- The handler's status write goes through `tasksService.updateStatus`,
whose repository save is outside the query-runner transaction the handler
opens (`updateStatusWithManager`, the manager-scoped path, is never called):
with a working commit it returns the claimed success result, but when the
commit of the handler's transaction fails it rolls back and re-raises while
the task's stored status has already changed — against the claim that the
write sits inside the transaction and rollback leaves stored state
unchanged. -/
theorem c6_status_write_outside_transaction :
    handleStatusUpdate true [{ id := "T1", title := "t1", userId := "u" }]
        (some "T1") (some "COMPLETED") =
      ([{ id := "T1", title := "t1", status := TaskStatus.COMPLETED, userId := "u" }],
        Except.ok
          { success := true
            taskId := some "T1"
            newStatus := some TaskStatus.COMPLETED }) ∧
    handleStatusUpdate false [{ id := "T1", title := "t1", userId := "u" }]
        (some "T1") (some "COMPLETED") =
      ([{ id := "T1", title := "t1", status := TaskStatus.COMPLETED, userId := "u" }],
        Except.error "commit failed") ∧
    ([{ id := "T1", title := "t1", status := TaskStatus.COMPLETED, userId := "u" }] :
        List Task) ≠ [{ id := "T1", title := "t1", userId := "u" }] :=
  ⟨rfl, rfl, by decide⟩

/-- Reprocessing the same well-formed `task-status-update` job on an existing
task twice yields exactly the stored state and result of processing it
once. -/
theorem c8_status_update_idempotent (store : List Task) (i str : String)
    (s : TaskStatus) (task : Task)
    (hi : i ≠ "") (hparse : parseStatus str = some s)
    (hfind : findTask store i = some task) :
    handleStatusUpdate true (handleStatusUpdate true store (some i) (some str)).1
        (some i) (some str) =
      handleStatusUpdate true store (some i) (some str) := by
  obtain ⟨hmem, hid⟩ := findTask_some store i task hfind
  have hid1 : (Task.id { task with status := s }) = i := hid
  have hmap : saveTask store { task with status := s } =
      store.map (fun u => if u.id = Task.id { task with status := s }
        then { task with status := s } else u) :=
    saveTask_found store { task with status := s } task hmem rfl
  have hp : ∀ u : Task,
      (fun t => decide (t.id = i))
        ((fun u => if u.id = Task.id { task with status := s }
          then { task with status := s } else u) u) =
      (fun t => decide (t.id = i)) u := by
    intro u
    dsimp only
    by_cases huid : u.id = Task.id { task with status := s }
    · rw [if_pos huid]
      show decide (Task.id { task with status := s } = i) = decide (u.id = i)
      rw [hid1, huid, hid1]
    · rw [if_neg huid]
  have hfind1 : findTask (saveTask store { task with status := s }) i =
      some { task with status := s } := by
    rw [hmap]
    unfold findTask
    rw [find?_map_pred _ _ hp store]
    unfold findTask at hfind
    rw [hfind]
    simp
  have hrepl : ∀ u ∈ saveTask store { task with status := s },
      u.id = Task.id { task with status := s } → u = { task with status := s } := by
    rw [hmap]
    intro u hu hueq
    obtain ⟨v, hv, rfl⟩ := List.mem_map.mp hu
    by_cases hvid : v.id = Task.id { task with status := s }
    · rw [if_pos hvid]
    · rw [if_neg hvid] at hueq ⊢
      exact absurd hueq hvid
  rw [handleStatusUpdate_run store i str s task hi hparse hfind]
  rw [handleStatusUpdate_run (saveTask store { task with status := s }) i str s
    { task with status := s } hi hparse hfind1]
  have heta : ({ { task with status := s } with status := s } : Task) =
      { task with status := s } := rfl
  rw [heta, saveTask_self _ _ (mem_saveTask store { task with status := s }) hrepl]

/-- Concrete C8 run: re-delivering `{taskId: 'T1', status: 'COMPLETED'}` to
the handler changes nothing the second time. -/
theorem c8_status_update_idempotent_witness :
    handleStatusUpdate true
        (handleStatusUpdate true [{ id := "T1", title := "t1", userId := "u" }]
          (some "T1") (some "COMPLETED")).1 (some "T1") (some "COMPLETED") =
      handleStatusUpdate true [{ id := "T1", title := "t1", userId := "u" }]
        (some "T1") (some "COMPLETED") :=
  c8_status_update_idempotent [{ id := "T1", title := "t1", userId := "u" }]
    "T1" "COMPLETED" TaskStatus.COMPLETED { id := "T1", title := "t1", userId := "u" }
    (by decide) (by decide) (by decide)

/-- Sort key of the overdue query's `ORDER BY dueDate ASC`; rows admitted by
the overdue predicate always carry a due date. -/
def dueKey (t : Task) : Int := t.dueDate.getD 0

/-- The processor-side overdue filter of `findOverdueTasks`:
`dueDate < :now AND status != COMPLETED`. -/
def overdueNotCompleted (now : Int) (t : Task) : Bool :=
  (match t.dueDate with
   | some d => decide (d < now)
   | none => false) && !(decide (t.status = TaskStatus.COMPLETED))

/-- The comparator realising `ORDER BY dueDate ASC`. -/
def dueLE (a b : Task) : Bool := decide (dueKey a ≤ dueKey b)

/-- The matching rows in query order (due date ascending, stable). -/
def overdueView (now : Int) (store : List Task) : List Task :=
  (store.filter (overdueNotCompleted now)).mergeSort dueLE

/-- The query `TasksService.findOverdueTasks(limit, offset)`: the overdue
non-completed rows ordered by due date ascending, `OFFSET offset LIMIT
limit`. -/
def findOverdueTasks (now : Int) (store : List Task) (limit offset : Nat) : List Task :=
  ((overdueView now store).drop offset).take limit

/-- Pointwise store effect of resetting the rows carrying the given ids to
PENDING. -/
def resetIf (ids : List String) (u : Task) : Task :=
  if u.id ∈ ids then { u with status := TaskStatus.PENDING } else u

/-- The `Promise.all(tasks.map(task => updateStatus(task.id, PENDING)))` of
one page, linearised left to right (the writes commute: the page's ids are
distinct rows). -/
def resetAll (store : List Task) : List Task → Except String (List Task)
  | [] => Except.ok store
  | t :: ts =>
    match updateStatus store t.id TaskStatus.PENDING with
    | Except.error e => Except.error e
    | Except.ok (store1, _) => resetAll store1 ts

/-- The result object of `TaskProcessorService.handleOverdueTasks`. -/
structure OverdueResult where
  success : Bool
  processedCount : Option Nat := none
  error : Option String := none
deriving DecidableEq, Repr

/-- The while-loop of `handleOverdueTasks` with structural fuel (one
iteration consumes a full page of 100 rows, so any fuel beyond
`store.length + 1` is never exhausted); `processed` is the running
`processedCount`, which doubles as the next page offset. -/
def handleOverdueGo (now : Int) : Nat → List Task → Nat → Except String (List Task × Nat)
  | 0, _, _ => Except.error "out of fuel"
  | fuel + 1, store, processed =>
    let tasks := findOverdueTasks now store 100 processed
    if tasks.length = 0 then Except.ok (store, processed)
    else
      match resetAll store tasks with
      | Except.error e => Except.error e
      | Except.ok store1 =>
        if tasks.length < 100 then Except.ok (store1, processed + tasks.length)
        else handleOverdueGo now fuel store1 (processed + tasks.length)

/-- The handler `TaskProcessorService.handleOverdueTasks`: one transaction around the
paging loop (as in the status handler, the per-task writes go through the
repository); on completing the loop it commits and returns
`{success: true, processedCount}`; a store error inside the loop rolls back
and re-raises. -/
def handleOverdueTasks (now : Int) (store : List Task) :
    Except String (List Task × OverdueResult) :=
  match handleOverdueGo now (store.length + 1) store 0 with
  | Except.error e => Except.error e
  | Except.ok (store1, n) =>
    Except.ok (store1, { success := true, processedCount := some n })

theorem resetIf_id (ids : List String) (u : Task) : (resetIf ids u).id = u.id := by
  unfold resetIf
  by_cases h : u.id ∈ ids
  · rw [if_pos h]
  · rw [if_neg h]

theorem resetIf_dueKey (ids : List String) (u : Task) :
    dueKey (resetIf ids u) = dueKey u := by
  unfold resetIf
  by_cases h : u.id ∈ ids
  · rw [if_pos h]
    rfl
  · rw [if_neg h]

theorem map_id_map_resetIf (store : List Task) (ids : List String) :
    (store.map (resetIf ids)).map Task.id = store.map Task.id := by
  rw [List.map_map]
  apply List.map_congr_left
  intro u _
  exact resetIf_id ids u

theorem findTask_of_nodup (store : List Task)
    (hnd : (store.map Task.id).Nodup) (t : Task) (hmem : t ∈ store) :
    findTask store t.id = some t := by
  induction store with
  | nil => exact absurd hmem (List.not_mem_nil t)
  | cons u rest ih =>
    rcases List.mem_cons.mp hmem with rfl | hmem2
    · unfold findTask
      rw [List.find?_cons_of_pos _ (by simp)]
    · have hnd2 : (rest.map Task.id).Nodup := by
        rw [List.map_cons] at hnd
        exact (List.nodup_cons.mp hnd).2
      have hne : u.id ≠ t.id := by
        intro he
        rw [List.map_cons] at hnd
        exact (List.nodup_cons.mp hnd).1 (he ▸ List.mem_map.mpr ⟨t, hmem2, rfl⟩)
      unfold findTask
      rw [List.find?_cons_of_neg _ (by simpa using hne)]
      exact ih hnd2 hmem2

theorem resetIf_mem (ids : List String) (u : Task) (h : u.id ∈ ids) :
    resetIf ids u = { u with status := TaskStatus.PENDING } := by
  unfold resetIf
  rw [if_pos h]

theorem resetIf_not_mem (ids : List String) (u : Task) (h : u.id ∉ ids) :
    resetIf ids u = u := by
  unfold resetIf
  rw [if_neg h]

theorem overdueNotCompleted_reset (now : Int) (u : Task)
    (hP : overdueNotCompleted now u = true) :
    overdueNotCompleted now { u with status := TaskStatus.PENDING } = true := by
  unfold overdueNotCompleted at hP ⊢
  rw [Bool.and_eq_true] at hP
  rw [Bool.and_eq_true]
  exact ⟨hP.1, rfl⟩

theorem resetAll_eq :
    ∀ (page : List Task) (store : List Task),
      (store.map Task.id).Nodup →
      (∀ t ∈ page, t ∈ store) →
      (page.map Task.id).Nodup →
      resetAll store page = Except.ok (store.map (resetIf (page.map Task.id))) := by
  intro page
  induction page with
  | nil =>
    intro store _ _ _
    unfold resetAll
    have h1 : store.map (resetIf []) = store.map id :=
      List.map_congr_left (fun u _ => resetIf_not_mem [] u (List.not_mem_nil u.id))
    rw [show List.map Task.id ([] : List Task) = [] from rfl, h1, List.map_id]
  | cons t ts ih =>
    intro store hnd hsub hpn
    have hmem : t ∈ store := hsub t (List.mem_cons_self t ts)
    have hfind : findTask store t.id = some t := findTask_of_nodup store hnd t hmem
    have hhead : t.id ∉ ts.map Task.id := by
      rw [List.map_cons] at hpn
      exact (List.nodup_cons.mp hpn).1
    have hpn1 : (ts.map Task.id).Nodup := by
      rw [List.map_cons] at hpn
      exact (List.nodup_cons.mp hpn).2
    have hsave : saveTask store { t with status := TaskStatus.PENDING } =
        store.map (resetIf [t.id]) := by
      rw [saveTask_found store { t with status := TaskStatus.PENDING } t hmem rfl]
      apply List.map_congr_left
      intro u hu
      by_cases h : u.id = Task.id { t with status := TaskStatus.PENDING }
      · rw [if_pos h, resetIf_mem [t.id] u (by simpa using h)]
        have hut : u = t := List.inj_on_of_nodup_map hnd hu hmem h
        rw [hut]
      · rw [if_neg h, resetIf_not_mem [t.id] u (by simpa using h)]
    have hnd1 : ((store.map (resetIf [t.id])).map Task.id).Nodup := by
      rw [map_id_map_resetIf]
      exact hnd
    have hsub1 : ∀ x ∈ ts, x ∈ store.map (resetIf [t.id]) := by
      intro x hx
      have hxs : x ∈ store := hsub x (List.mem_cons_of_mem t hx)
      have hxne : x.id ≠ t.id := by
        intro he
        exact hhead (he ▸ List.mem_map.mpr ⟨x, hx, rfl⟩)
      exact List.mem_map.mpr ⟨x, hxs, resetIf_not_mem [t.id] x (by simpa using hxne)⟩
    have hcompose : (store.map (resetIf [t.id])).map (resetIf (ts.map Task.id)) =
        store.map (resetIf ((t :: ts).map Task.id)) := by
      rw [List.map_map]
      apply List.map_congr_left
      intro u _
      show resetIf (ts.map Task.id) (resetIf [t.id] u) = resetIf ((t :: ts).map Task.id) u
      by_cases h : u.id = t.id
      · rw [resetIf_mem [t.id] u (by simpa using h)]
        rw [resetIf_not_mem _ _ (by simpa using (h ▸ hhead : u.id ∉ ts.map Task.id))]
        rw [resetIf_mem _ u (by simp [h])]
      · rw [resetIf_not_mem [t.id] u (by simpa using h)]
        by_cases h2 : u.id ∈ ts.map Task.id
        · rw [resetIf_mem _ u h2, resetIf_mem _ u (by simp [h2])]
        · rw [resetIf_not_mem _ u h2, resetIf_not_mem _ u (by simp [h, h2])]
    unfold resetAll updateStatus findOne
    rw [hfind]
    dsimp only
    rw [hsave]
    rw [ih (store.map (resetIf [t.id])) hnd1 hsub1 hpn1]
    rw [hcompose]

theorem overdueView_reset (now : Int) (store : List Task) (ids : List String)
    (hP : ∀ u ∈ store, u.id ∈ ids → overdueNotCompleted now u = true) :
    overdueView now (store.map (resetIf ids)) =
      (overdueView now store).map (resetIf ids) := by
  unfold overdueView
  rw [List.filter_map]
  have hfc : store.filter (overdueNotCompleted now ∘ resetIf ids) =
      store.filter (overdueNotCompleted now) := by
    apply List.filter_congr
    intro u hu
    show overdueNotCompleted now (resetIf ids u) = overdueNotCompleted now u
    by_cases h : u.id ∈ ids
    · rw [resetIf_mem ids u h]
      have hu2 := hP u hu h
      rw [hu2, overdueNotCompleted_reset now u hu2]
    · rw [resetIf_not_mem ids u h]
  rw [hfc]
  exact (List.map_mergeSort (fun a _ b _ => by
    show dueLE a b = dueLE (resetIf ids a) (resetIf ids b)
    unfold dueLE
    rw [resetIf_dueKey, resetIf_dueKey])).symm

theorem mem_overdueView (now : Int) (store : List Task) (t : Task) :
    t ∈ overdueView now store ↔ t ∈ store ∧ overdueNotCompleted now t = true := by
  unfold overdueView
  rw [List.mem_mergeSort, List.mem_filter]

theorem overdueView_ids_nodup (now : Int) (store : List Task)
    (hnd : (store.map Task.id).Nodup) :
    ((overdueView now store).map Task.id).Nodup := by
  have hperm : (overdueView now store).Perm (store.filter (overdueNotCompleted now)) :=
    List.mergeSort_perm _ _
  have hfil : ((store.filter (overdueNotCompleted now)).map Task.id).Nodup :=
    List.Nodup.sublist (List.Sublist.map Task.id (List.filter_sublist store)) hnd
  exact ((hperm.map Task.id).nodup_iff).mpr hfil

theorem take_length_take (l : List Task) (n : Nat) :
    l.take (l.take n).length = l.take n := by
  rw [List.length_take]
  rcases Nat.le_total n l.length with h | h
  · rw [min_eq_left h]
  · rw [min_eq_right h, List.take_of_length_le h, List.take_of_length_le le_rfl]

theorem handleOverdueGo_spec (now : Int) :
    ∀ (fuel : Nat) (store : List Task) (processed : Nat),
      (store.map Task.id).Nodup →
      processed ≤ (overdueView now store).length →
      (∀ t ∈ (overdueView now store).take processed, t.status = TaskStatus.PENDING) →
      (overdueView now store).length < processed + fuel * 100 →
      ∃ store1,
        handleOverdueGo now fuel store processed =
          Except.ok (store1, (overdueView now store).length) ∧
        (∀ t ∈ store1, overdueNotCompleted now t = true →
          t.status = TaskStatus.PENDING) := by
  intro fuel
  induction fuel with
  | zero =>
    intro store processed _ hle _ hfuel
    omega
  | succ fuel ih =>
    intro store processed hnd hle hpref hfuel
    have hpagelen : (findOverdueTasks now store 100 processed).length =
        min 100 ((overdueView now store).length - processed) := by
      unfold findOverdueTasks
      rw [List.length_take, List.length_drop]
    rw [handleOverdueGo]
    by_cases hempty : (findOverdueTasks now store 100 processed).length = 0
    · rw [if_pos hempty]
      have hpn : processed = (overdueView now store).length := by omega
      refine ⟨store, by rw [hpn], ?_⟩
      intro t ht hP
      have htG : t ∈ overdueView now store := (mem_overdueView now store t).mpr ⟨ht, hP⟩
      have htake : t ∈ (overdueView now store).take processed := by
        rw [hpn, List.take_length]
        exact htG
      exact hpref t htake
    · rw [if_neg hempty]
      have hsubG : ∀ t ∈ findOverdueTasks now store 100 processed, t ∈ overdueView now store := by
        intro t ht
        unfold findOverdueTasks at ht
        exact List.drop_subset _ _ (List.take_subset _ _ ht)
      have hsub : ∀ t ∈ findOverdueTasks now store 100 processed, t ∈ store :=
        fun t ht => ((mem_overdueView now store t).mp (hsubG t ht)).1
      have hPpage : ∀ t ∈ findOverdueTasks now store 100 processed,
          overdueNotCompleted now t = true :=
        fun t ht => ((mem_overdueView now store t).mp (hsubG t ht)).2
      have hpagesub : (findOverdueTasks now store 100 processed).Sublist (overdueView now store) := by
        unfold findOverdueTasks
        exact List.Sublist.trans (List.take_sublist _ _) (List.drop_sublist _ _)
      have hpn : ((findOverdueTasks now store 100 processed).map Task.id).Nodup :=
        List.Nodup.sublist (List.Sublist.map Task.id hpagesub)
          (overdueView_ids_nodup now store hnd)
      have hPids : ∀ u ∈ store,
          u.id ∈ (findOverdueTasks now store 100 processed).map Task.id →
          overdueNotCompleted now u = true := by
        intro u hu hid
        obtain ⟨t, ht, htid⟩ := List.mem_map.mp hid
        have hut : u = t :=
          List.inj_on_of_nodup_map hnd hu (hsub t ht) htid.symm
        rw [hut]
        exact hPpage t ht
      rw [resetAll_eq (findOverdueTasks now store 100 processed) store hnd hsub hpn]
      dsimp only
      have hview1 : overdueView now
          (store.map (resetIf ((findOverdueTasks now store 100 processed).map Task.id))) =
          (overdueView now store).map
            (resetIf ((findOverdueTasks now store 100 processed).map Task.id)) :=
        overdueView_reset now store _ hPids
      have hN1 : (overdueView now
          (store.map (resetIf ((findOverdueTasks now store 100 processed).map Task.id)))).length =
          (overdueView now store).length := by
        rw [hview1, List.length_map]
      have hnd1 : ((store.map
          (resetIf ((findOverdueTasks now store 100 processed).map Task.id))).map Task.id).Nodup := by
        rw [map_id_map_resetIf]
        exact hnd
      have htakepage : ((overdueView now store).drop processed).take
          (findOverdueTasks now store 100 processed).length =
          findOverdueTasks now store 100 processed :=
        take_length_take ((overdueView now store).drop processed) 100
      have hpref1 : ∀ t ∈ (overdueView now
          (store.map (resetIf ((findOverdueTasks now store 100 processed).map Task.id)))).take
            (processed + (findOverdueTasks now store 100 processed).length),
          t.status = TaskStatus.PENDING := by
        intro t ht
        rw [hview1, ← List.map_take, List.take_add, htakepage] at ht
        obtain ⟨x, hx, rfl⟩ := List.mem_map.mp ht
        rcases List.mem_append.mp hx with hx1 | hx2
        · have hxst : x.status = TaskStatus.PENDING := hpref x hx1
          unfold resetIf
          by_cases h : x.id ∈ (findOverdueTasks now store 100 processed).map Task.id
          · rw [if_pos h]
          · rw [if_neg h]
            exact hxst
        · rw [resetIf_mem _ x (List.mem_map.mpr ⟨x, hx2, rfl⟩)]
      by_cases hlt : (findOverdueTasks now store 100 processed).length < 100
      · rw [if_pos hlt]
        have hfin : processed + (findOverdueTasks now store 100 processed).length =
            (overdueView now store).length := by omega
        refine ⟨_, by rw [hfin], ?_⟩
        intro t ht hP
        have htG : t ∈ overdueView now
            (store.map (resetIf ((findOverdueTasks now store 100 processed).map Task.id))) :=
          (mem_overdueView now _ t).mpr ⟨ht, hP⟩
        apply hpref1 t
        rw [List.take_of_length_le (by omega)]
        exact htG
      · rw [if_neg hlt]
        have hlen100 : (findOverdueTasks now store 100 processed).length = 100 := by omega
        obtain ⟨store2, hrun, hpend⟩ := ih
          (store.map (resetIf ((findOverdueTasks now store 100 processed).map Task.id)))
          (processed + (findOverdueTasks now store 100 processed).length)
          hnd1 (by omega) hpref1 (by omega)
        refine ⟨store2, ?_, hpend⟩
        rw [hrun, hN1]

/-- Handling one overdue-notification job over a store with N overdue
non-completed rows (distinct primary keys) pages through `findOverdueTasks`
and returns `{success: true, processedCount: N}`, committing; afterwards
every overdue non-completed row — every fetched task — has status PENDING.
In particular with N = 0 the first page is empty and the handler returns
`{success: true, processedCount: 0}` without erroring. -/
theorem c3_overdue_handler_processes_all (now : Int) (store : List Task)
    (hnd : (store.map Task.id).Nodup) :
    ∃ store1,
      handleOverdueTasks now store =
        Except.ok (store1,
          { success := true
            processedCount := some ((store.filter (overdueNotCompleted now)).length) }) ∧
      (∀ t ∈ store1, overdueNotCompleted now t = true →
        t.status = TaskStatus.PENDING) := by
  have hNs : (overdueView now store).length =
      (store.filter (overdueNotCompleted now)).length := by
    unfold overdueView
    exact List.length_mergeSort _
  have hNle : (overdueView now store).length ≤ store.length := by
    rw [hNs]
    exact List.length_filter_le _ _
  obtain ⟨store1, hrun, hpend⟩ := handleOverdueGo_spec now (store.length + 1) store 0
    hnd (Nat.zero_le _) (by simp) (by omega)
  refine ⟨store1, ?_, hpend⟩
  unfold handleOverdueTasks
  rw [hrun, hNs]

/-- Concrete C3 scenarios: the empty store (N = 0: empty success, count 0)
and a two-row store with one overdue pending and one overdue completed task
(N = 1). -/
theorem c3_overdue_handler_processes_all_witness :
    (∃ store1,
      handleOverdueTasks 0 ([] : List Task) =
        Except.ok (store1, { success := true, processedCount := some 0 }) ∧
      (∀ t ∈ store1, overdueNotCompleted 0 t = true →
        t.status = TaskStatus.PENDING)) ∧
    (∃ store1,
      handleOverdueTasks 0
          [{ id := "A", title := "a", status := TaskStatus.IN_PROGRESS,
             dueDate := some (-3), userId := "u" },
           { id := "B", title := "b", status := TaskStatus.COMPLETED,
             dueDate := some (-2), userId := "u" }] =
        Except.ok (store1, { success := true, processedCount := some 1 }) ∧
      (∀ t ∈ store1, overdueNotCompleted 0 t = true →
        t.status = TaskStatus.PENDING)) :=
  ⟨c3_overdue_handler_processes_all 0 [] (by decide),
   c3_overdue_handler_processes_all 0
     [{ id := "A", title := "a", status := TaskStatus.IN_PROGRESS,
        dueDate := some (-3), userId := "u" },
      { id := "B", title := "b", status := TaskStatus.COMPLETED,
        dueDate := some (-2), userId := "u" }] (by decide)⟩

end ScriptAssist
